import Mathlib

/-!
Verification of the coin-triangle puzzle geometry engine (`src/App.tsx`).

The source is a React component; its geometry core is shallowly embedded
here.  Coordinates are real numbers (the source computes with IEEE doubles;
we model the intended real arithmetic).  The source's module-level constants
`COIN_RADIUS`, `BOARD_WIDTH`, `BOARD_HEIGHT` depend on the browser window
size, so — following the spec's contracts
`find_valid_zones(layout, selected_id, coin_radius, board_bounds)` — the
geometry functions take the radius and the board dimensions as parameters;
the board centre `(cx, cy)` likewise parametrises the initial and target
layouts.  The reference desktop scale is radius 30 on a 600 × 400 board,
centre (300, 200).
-/

namespace CoinPuzzle

noncomputable section

/-- A 2-D position (source `interface Position`). -/
structure Position where
  x : ℝ
  y : ℝ

/-- A coin: stable identity, position and a transient selection flag
(source `interface Coin`). -/
structure Coin where
  id : ℕ
  x : ℝ
  y : ℝ
  isSelected : Bool

/-- The position of a coin. -/
def Coin.pos (c : Coin) : Position := ⟨c.x, c.y⟩

/-- Euclidean distance (source `getDistance`):
`Math.sqrt(Math.pow(pos1.x - pos2.x, 2) + Math.pow(pos1.y - pos2.y, 2))`. -/
def getDistance (p1 p2 : Position) : ℝ :=
  Real.sqrt ((p1.x - p2.x) ^ 2 + (p1.y - p2.y) ^ 2)

/-- Source `INITIAL_POSITIONS`: the upward triangle, relative to the board
centre `(cx, cy)`. -/
def INITIAL_POSITIONS (cx cy : ℝ) : List Position :=
  [⟨cx, cy - 60⟩, ⟨cx - 30, cy - 8⟩, ⟨cx + 30, cy - 8⟩,
   ⟨cx - 60, cy + 44⟩, ⟨cx, cy + 44⟩, ⟨cx + 60, cy + 44⟩]

/-- Source `TARGET_POSITIONS`: the downward triangle, relative to the board
centre `(cx, cy)`. -/
def TARGET_POSITIONS (cx cy : ℝ) : List Position :=
  [⟨cx - 60, cy - 60⟩, ⟨cx, cy - 60⟩, ⟨cx + 60, cy - 60⟩,
   ⟨cx - 30, cy - 8⟩, ⟨cx + 30, cy - 8⟩, ⟨cx, cy + 44⟩]

/-- The initial coin list (source `useState` initialiser:
`INITIAL_POSITIONS.map((pos, index) => ({id: index, x, y, isSelected: false}))`). -/
def initialCoins (cx cy : ℝ) : List Coin :=
  (INITIAL_POSITIONS cx cy).enum.map fun ip =>
    { id := ip.1, x := ip.2.x, y := ip.2.y, isSelected := false }

/-- The completion check (source `useEffect`, lines 83–99):
`coins.every((coin, index) => getDistance(coin, TARGET_POSITIONS[index]) < 20)`.
The app always holds exactly six coins, matching the six target slots, so the
index-parallel traversal is modelled by `zip`. -/
def isComplete (cx cy : ℝ) (coins : List Coin) : Bool :=
  (coins.zip (TARGET_POSITIONS cx cy)).all fun ct =>
    decide (getDistance ct.1.pos ct.2 < 20)

/-- All ordered pairs `(l[i], l[j])` with `i < j`, in the iteration order of
the source's double loop (`for i ...; for j = i+1 ...`). -/
def pairsAfter {α : Type} : List α → List (α × α)
  | [] => []
  | x :: xs => (xs.map fun y => (x, y)) ++ pairsAfter xs

/-- The two tangency candidates a pair of reference coins generates
(source `findValidDropZones`, lines 127–141): perpendicular offset from the
midpoint, `offset = sqrt(max(0, (2R)² − (d/2)²))`. -/
def candidatePositions (R : ℝ) (c1 c2 : Coin) : Position × Position :=
  let midX := (c1.x + c2.x) / 2
  let midY := (c1.y + c2.y) / 2
  let dx := c2.x - c1.x
  let dy := c2.y - c1.y
  let dist := Real.sqrt (dx * dx + dy * dy)
  let perpX := -dy / dist
  let perpY := dx / dist
  let offset := Real.sqrt (max 0 ((R * 2) * (R * 2) - (dist / 2) * (dist / 2)))
  (⟨midX + perpX * offset, midY + perpY * offset⟩,
   ⟨midX - perpX * offset, midY - perpY * offset⟩)

/-- The drop zones one pair of reference coins contributes
(source `findValidDropZones` loop body, lines 121–156): the pair is
considered only if its distance is at most `4R` and positive; each candidate
survives if it lies strictly inside the board with margin `R` and is not
within `1.5R` of any non-selected coin. -/
def zonesForPair (R W H : ℝ) (otherCoins : List Coin) (c1 c2 : Coin) :
    List Position :=
  let distance := getDistance c1.pos c2.pos
  if distance ≤ R * 4 then
    let dx := c2.x - c1.x
    let dy := c2.y - c1.y
    let dist := Real.sqrt (dx * dx + dy * dy)
    if dist > 0 then
      let ps := candidatePositions R c1 c2
      (if ps.1.x > R ∧ ps.1.x < W - R ∧ ps.1.y > R ∧ ps.1.y < H - R then
        if otherCoins.any fun c => decide (getDistance c.pos ps.1 < R * 1.5) then
          []
        else [ps.1]
      else []) ++
      (if ps.2.x > R ∧ ps.2.x < W - R ∧ ps.2.y > R ∧ ps.2.y < H - R then
        if otherCoins.any fun c => decide (getDistance c.pos ps.2 < R * 1.5) then
          []
        else [ps.2]
      else [])
    else []
  else []

/-- Source `findValidDropZones` (lines 111–161): if the selected identity is
absent the result is empty; otherwise every pair of the remaining coins
contributes its surviving tangency candidates, in loop order. -/
def findValidDropZones (R W H : ℝ) (coins : List Coin) (coinId : ℕ) :
    List Position :=
  match coins.find? fun c => c.id == coinId with
  | none => []
  | some _ =>
    let otherCoins := coins.filter fun c => !(c.id == coinId)
    (pairsAfter otherCoins).flatMap fun p => zonesForPair R W H otherCoins p.1 p.2

/-- The game state the React component keeps (`coins`, `moves`,
`selectedCoin`, `validDropZones`; timer and best-score state is external to
the geometry engine and not modelled). -/
structure GameState where
  coins : List Coin
  moves : ℕ
  selectedCoin : Option ℕ
  validDropZones : List Position

/-- Source `handleCoinClick` (lines 164–179): clicking the selected coin
deselects it; clicking another coin selects it and computes its drop zones. -/
def handleCoinClick (R W H : ℝ) (s : GameState) (coinId : ℕ) : GameState :=
  if s.selectedCoin = some coinId then
    { s with
      selectedCoin := none
      validDropZones := []
      coins := s.coins.map fun c => { c with isSelected := false } }
  else
    { s with
      selectedCoin := some coinId
      validDropZones := findValidDropZones R W H s.coins coinId
      coins := s.coins.map fun c => { c with isSelected := c.id == coinId } }

/-- The coin-list update of a move (source `handleZoneClick` `setCoins`
call): the selected coin takes the zone's coordinates, every coin is
deselected. -/
def applyMoveCoins (sel : ℕ) (zone : Position) (coins : List Coin) :
    List Coin :=
  coins.map fun c =>
    if c.id == sel then { c with x := zone.x, y := zone.y, isSelected := false }
    else { c with isSelected := false }

/-- Source `handleZoneClick` (lines 182–195): with no selection the click is
ignored; otherwise the selected coin moves to the zone, the move counter
increments and the selection is cleared. -/
def handleZoneClick (s : GameState) (zone : Position) : GameState :=
  match s.selectedCoin with
  | none => s
  | some sel =>
    { coins := applyMoveCoins sel zone s.coins
      moves := s.moves + 1
      selectedCoin := none
      validDropZones := [] }

/-- Source `resetGame` (lines 197–210): back to the initial layout, zero
moves, no selection, no zones. -/
def resetGame (cx cy : ℝ) : GameState :=
  { coins := initialCoins cx cy
    moves := 0
    selectedCoin := none
    validDropZones := [] }

/-! ### Helper lemmas -/

lemma sqrt_eq_of_sq (a b : ℝ) (hb : 0 ≤ b) (h : b ^ 2 = a) :
    Real.sqrt a = b := by
  rw [← h, Real.sqrt_sq hb]

/-! ### Claim theorems -/

/-- C10: clicking a zone with no coin selected is a no-op — the state (hence
every coin position and the move counter) is unchanged. -/
theorem handleZoneClick_no_selection (s : GameState) (zone : Position)
    (h : s.selectedCoin = none) : handleZoneClick s zone = s := by
  unfold handleZoneClick
  rw [h]

/-- Witness for C10 at the freshly reset state. -/
theorem handleZoneClick_no_selection_witness :
    handleZoneClick (resetGame 300 200) ⟨100, 100⟩ = resetGame 300 200 :=
  handleZoneClick_no_selection (resetGame 300 200) ⟨100, 100⟩ rfl

/-- C9: when the selected identity matches no coin in the layout,
`findValidDropZones` returns the empty list instead of failing. -/
theorem findValidDropZones_missing_id (R W H : ℝ) (coins : List Coin)
    (coinId : ℕ) (h : ∀ c ∈ coins, c.id ≠ coinId) :
    findValidDropZones R W H coins coinId = [] := by
  have hf : coins.find? (fun c => c.id == coinId) = none := by
    rw [List.find?_eq_none]
    intro c hc
    simpa using h c hc
  unfold findValidDropZones
  rw [hf]

/-- Witness for C9: identity 6 is absent from the initial six-coin layout. -/
theorem findValidDropZones_missing_id_witness :
    findValidDropZones 30 600 400 (initialCoins 300 200) 6 = [] :=
  findValidDropZones_missing_id 30 600 400 (initialCoins 300 200) 6 (by decide)

/-- C8: a coincident (distance-zero) pair of reference coins contributes no
candidate position — the `dist > 0` guard skips the pair, so no division by
zero is reached and no error arises. -/
theorem zonesForPair_coincident (R W H : ℝ) (others : List Coin)
    (c1 c2 : Coin) (hx : c1.x = c2.x) (hy : c1.y = c2.y) :
    zonesForPair R W H others c1 c2 = [] := by
  simp [zonesForPair, getDistance, Coin.pos, hx, hy]

/-- Witness for C8 at a concrete coincident pair. -/
theorem zonesForPair_coincident_witness :
    zonesForPair 30 600 400 [] ⟨1, 50, 50, false⟩ ⟨2, 50, 50, false⟩ = [] :=
  zonesForPair_coincident 30 600 400 [] ⟨1, 50, 50, false⟩ ⟨2, 50, 50, false⟩
    rfl rfl

/-- C7: `findValidDropZones` is a deterministic query — two invocations on
the same unchanged layout with the same selected identity agree (in
particular as sets of positions). -/
theorem findValidDropZones_deterministic (R W H : ℝ) (s1 s2 : GameState)
    (coinId : ℕ) (p : Position) (h : s1.coins = s2.coins) :
    p ∈ findValidDropZones R W H s1.coins coinId ↔
      p ∈ findValidDropZones R W H s2.coins coinId := by
  rw [h]

/-- Witness for C7: two reads of the reset state's layout. -/
theorem findValidDropZones_deterministic_witness :
    (⟨148, 136⟩ : Position) ∈
        findValidDropZones 30 600 400 (resetGame 300 200).coins 0 ↔
      (⟨148, 136⟩ : Position) ∈
        findValidDropZones 30 600 400 (resetGame 300 200).coins 0 :=
  findValidDropZones_deterministic 30 600 400 (resetGame 300 200)
    (resetGame 300 200) 0 ⟨148, 136⟩ rfl

lemma map_id_setSelected (f : Coin → Bool) (l : List Coin) :
    (l.map fun c => { c with isSelected := f c }).map Coin.id =
      l.map Coin.id := by
  induction l with
  | nil => rfl
  | cons c t ih =>
    simp only [List.map_cons] at *
    rw [ih]

lemma map_id_applyMoveCoins (sel : ℕ) (zone : Position) (l : List Coin) :
    (applyMoveCoins sel zone l).map Coin.id = l.map Coin.id := by
  induction l with
  | nil => rfl
  | cons c t ih =>
    simp only [applyMoveCoins, List.map_cons] at *
    have hh : (if c.id == sel then
        { c with x := zone.x, y := zone.y, isSelected := false }
      else { c with isSelected := false }).id = c.id := by
      split <;> rfl
    rw [hh, ih]

/-- C5: a zone click with a selected coin replaces exactly that coin's
position with the destination, leaves every other coin's position (and every
coin's identity) unchanged, and increments the move counter by one. -/
theorem handleZoneClick_applies_move (s : GameState) (sel : ℕ)
    (zone : Position) (h : s.selectedCoin = some sel) :
    (handleZoneClick s zone).moves = s.moves + 1 ∧
    (handleZoneClick s zone).coins.length = s.coins.length ∧
    ∀ (i : ℕ) (c : Coin), s.coins[i]? = some c →
      ∃ d : Coin, (handleZoneClick s zone).coins[i]? = some d ∧ d.id = c.id ∧
        (c.id = sel → d.x = zone.x ∧ d.y = zone.y) ∧
        (c.id ≠ sel → d.x = c.x ∧ d.y = c.y) := by
  unfold handleZoneClick
  rw [h]
  refine ⟨rfl, by simp [applyMoveCoins], ?_⟩
  intro i c hc
  have hmap : (applyMoveCoins sel zone s.coins)[i]? =
      some (if c.id == sel then
          { c with x := zone.x, y := zone.y, isSelected := false }
        else { c with isSelected := false }) := by
    unfold applyMoveCoins
    rw [List.getElem?_map _ s.coins i, hc, Option.map_some']
  by_cases hcs : c.id = sel
  · refine ⟨{ c with x := zone.x, y := zone.y, isSelected := false }, ?_, rfl,
      fun _ => ⟨rfl, rfl⟩, fun h2 => absurd hcs h2⟩
    rw [hmap]
    simp [hcs]
  · refine ⟨{ c with isSelected := false }, ?_, rfl,
      fun h2 => absurd h2 hcs, fun _ => ⟨rfl, rfl⟩⟩
    rw [hmap]
    simp [hcs]

/-- Witness for C5: moving coin 0 of the initial layout to (150, 150). -/
theorem handleZoneClick_applies_move_witness :
    (handleZoneClick
        { coins := initialCoins 300 200, moves := 0, selectedCoin := some 0,
          validDropZones := [] } ⟨150, 150⟩).moves = 0 + 1 ∧
    (handleZoneClick
        { coins := initialCoins 300 200, moves := 0, selectedCoin := some 0,
          validDropZones := [] } ⟨150, 150⟩).coins.length =
      (initialCoins 300 200).length ∧
    ∀ (i : ℕ) (c : Coin), (initialCoins 300 200)[i]? = some c →
      ∃ d : Coin,
        (handleZoneClick
            { coins := initialCoins 300 200, moves := 0,
              selectedCoin := some 0, validDropZones := [] }
          ⟨150, 150⟩).coins[i]? = some d ∧ d.id = c.id ∧
        (c.id = 0 → d.x = (150 : ℝ) ∧ d.y = (150 : ℝ)) ∧
        (c.id ≠ 0 → d.x = c.x ∧ d.y = c.y) :=
  handleZoneClick_applies_move
    { coins := initialCoins 300 200, moves := 0, selectedCoin := some 0,
      validDropZones := [] } 0 ⟨150, 150⟩ rfl

/-- C6: coin selection, moves and resets all keep the layout's identities
exactly `[0, 1, 2, 3, 4, 5]` (six coins, identity set {0..5}, each coin's
identity positionally unchanged) — the operations only touch positions and
selection flags. -/
theorem operations_preserve_identities (R W H cx cy : ℝ) (s : GameState)
    (zone : Position) (coinId : ℕ)
    (h : s.coins.map Coin.id = [0, 1, 2, 3, 4, 5]) :
    (handleCoinClick R W H s coinId).coins.map Coin.id =
      [0, 1, 2, 3, 4, 5] ∧
    (handleZoneClick s zone).coins.map Coin.id = [0, 1, 2, 3, 4, 5] ∧
    (resetGame cx cy).coins.map Coin.id = [0, 1, 2, 3, 4, 5] := by
  refine ⟨?_, ?_, ?_⟩
  · unfold handleCoinClick
    split
    · exact (map_id_setSelected (fun _ => false) s.coins).trans h
    · exact (map_id_setSelected (fun c => c.id == coinId) s.coins).trans h
  · unfold handleZoneClick
    cases hsel : s.selectedCoin with
    | none => exact h
    | some sel => exact (map_id_applyMoveCoins sel zone s.coins).trans h
  · rfl

/-- Witness for C6 at the freshly reset state. -/
theorem operations_preserve_identities_witness :
    (handleCoinClick 30 600 400 (resetGame 300 200) 0).coins.map Coin.id =
      [0, 1, 2, 3, 4, 5] ∧
    (handleZoneClick (resetGame 300 200) ⟨0, 0⟩).coins.map Coin.id =
      [0, 1, 2, 3, 4, 5] ∧
    (resetGame 300 200).coins.map Coin.id = [0, 1, 2, 3, 4, 5] :=
  operations_preserve_identities 30 600 400 300 200 (resetGame 300 200)
    ⟨0, 0⟩ 0 rfl

/-- C1: the completion check returns `true` iff, for every identity
`i ∈ 0..5`, the Euclidean distance between the coin with identity `i` (by
`hid`, the coin at index `i`) and the target slot of the same index is
strictly below the tolerance 20; it is `false` as soon as one coin is 20 or
more away from its identity-matched slot.  No permutation is accepted: slot
`i` is compared against coin `i` only. -/
theorem isComplete_iff_within_tolerance (cx cy : ℝ) (coins : List Coin)
    (hlen : coins.length = 6)
    (hid : ∀ i (h : i < coins.length), (coins.get ⟨i, h⟩).id = i) :
    isComplete cx cy coins = true ↔
      ∀ i (h : i < 6),
        getDistance (coins.get ⟨i, by omega⟩).pos
          ((TARGET_POSITIONS cx cy).get
            ⟨i, by simpa [TARGET_POSITIONS] using h⟩) < 20 := by
  clear hid
  rcases coins with _ | ⟨a, _ | ⟨b, _ | ⟨c, _ | ⟨d, _ | ⟨e, _ | ⟨f, rest⟩⟩⟩⟩⟩⟩ <;>
    simp only [List.length_cons, List.length_nil] at hlen <;> try omega
  obtain rfl : rest = [] := by
    cases rest with
    | nil => rfl
    | cons g t =>
      simp only [List.length_cons] at hlen
      omega
  constructor
  · intro hL
    simp only [isComplete, TARGET_POSITIONS, List.zip_cons_cons,
      List.zip_nil_right, List.all_cons, List.all_nil, Bool.and_eq_true,
      decide_eq_true_eq, Bool.and_true, and_true] at hL
    intro i hi
    interval_cases i
    · exact hL.1
    · exact hL.2.1
    · exact hL.2.2.1
    · exact hL.2.2.2.1
    · exact hL.2.2.2.2.1
    · exact hL.2.2.2.2.2
  · intro hR
    simp only [isComplete, TARGET_POSITIONS, List.zip_cons_cons,
      List.zip_nil_right, List.all_cons, List.all_nil, Bool.and_eq_true,
      decide_eq_true_eq, Bool.and_true, and_true]
    exact ⟨hR 0 (by norm_num), hR 1 (by norm_num), hR 2 (by norm_num),
      hR 3 (by norm_num), hR 4 (by norm_num), hR 5 (by norm_num)⟩

/-- Witness for C1 at the initial six-coin layout on the reference board. -/
theorem isComplete_iff_within_tolerance_witness :
    isComplete 300 200 (initialCoins 300 200) = true ↔
      ∀ i (h : i < 6),
        getDistance ((initialCoins 300 200).get
            ⟨i, by simpa [initialCoins, INITIAL_POSITIONS] using h⟩).pos
          ((TARGET_POSITIONS 300 200).get
            ⟨i, by simpa [TARGET_POSITIONS] using h⟩) < 20 :=
  isComplete_iff_within_tolerance 300 200 (initialCoins 300 200) rfl
    (by decide)

lemma mem_zonesForPair (R W H : ℝ) (others : List Coin) (c1 c2 : Coin)
    (p : Position) (hp : p ∈ zonesForPair R W H others c1 c2) :
    (R < p.x ∧ p.x < W - R ∧ R < p.y ∧ p.y < H - R) ∧
    ∀ c ∈ others, ¬(getDistance c.pos p < R * 1.5) := by
  simp only [zonesForPair] at hp
  split at hp
  · split at hp
    · rw [List.mem_append] at hp
      rcases hp with hp | hp <;>
      · split at hp
        · split at hp
          · simp at hp
          · rw [List.mem_singleton] at hp
            subst hp
            refine ⟨by tauto, ?_⟩
            intro c hc
            next hb hocc =>
              rw [List.any_eq_true] at hocc
              push_neg at hocc
              simpa using hocc c hc
        · simp at hp
    · simp at hp
  · simp at hp

/-- C2: every position `findValidDropZones` returns keeps Euclidean distance
at least `1.5 × R` to every non-selected coin and lies inside the rectangle
`[R, W − R] × [R, H − R]` (the source even guarantees the strict interior). -/
theorem findValidDropZones_safe (R W H : ℝ) (coins : List Coin)
    (coinId : ℕ) (p : Position)
    (hp : p ∈ findValidDropZones R W H coins coinId) :
    (∀ c ∈ coins, c.id ≠ coinId → R * 1.5 ≤ getDistance c.pos p) ∧
    R ≤ p.x ∧ p.x ≤ W - R ∧ R ≤ p.y ∧ p.y ≤ H - R := by
  unfold findValidDropZones at hp
  split at hp
  · simp at hp
  · rw [List.mem_flatMap] at hp
    obtain ⟨pr, _, hmem⟩ := hp
    have h2 := mem_zonesForPair R W H _ pr.1 pr.2 p hmem
    obtain ⟨⟨hx1, hx2, hy1, hy2⟩, hfar⟩ := h2
    refine ⟨?_, le_of_lt hx1, le_of_lt hx2, le_of_lt hy1, le_of_lt hy2⟩
    intro c hc hne
    have hcf : c ∈ coins.filter fun c => !(c.id == coinId) := by
      rw [List.mem_filter]
      simpa using ⟨hc, hne⟩
    exact le_of_not_lt (hfar c hcf)

/-- A small concrete layout used as evaluation input: selected coin 0 far
away, coins 1 and 2 a rational-friendly 96 units apart, so every square root
the engine takes is exact. -/
def demoCoins : List Coin :=
  [⟨0, 500, 300, false⟩, ⟨1, 100, 100, false⟩, ⟨2, 196, 100, false⟩]

lemma demo_zones :
    findValidDropZones 30 600 400 demoCoins 0 = [⟨148, 136⟩, ⟨148, 64⟩] := by
  have h9216 : Real.sqrt (9216 : ℝ) = 96 :=
    sqrt_eq_of_sq _ _ (by norm_num) (by norm_num)
  have h1296 : Real.sqrt (1296 : ℝ) = 36 :=
    sqrt_eq_of_sq _ _ (by norm_num) (by norm_num)
  have h3600 : Real.sqrt (3600 : ℝ) = 60 :=
    sqrt_eq_of_sq _ _ (by norm_num) (by norm_num)
  have hmax : max (0 : ℝ) 1296 = 1296 := max_eq_right (by norm_num)
  have hstep : findValidDropZones 30 600 400 demoCoins 0 =
      zonesForPair 30 600 400
        [⟨1, 100, 100, false⟩, ⟨2, 196, 100, false⟩]
        ⟨1, 100, 100, false⟩ ⟨2, 196, 100, false⟩ ++ [] := rfl
  rw [hstep]
  simp only [zonesForPair, candidatePositions, getDistance, Coin.pos]
  norm_num [h9216, h1296, h3600, hmax]

/-- Witness for C2: the zone (148, 136) produced for coin 0 on `demoCoins`
keeps its distance to both reference coins and stays inside the board. -/
theorem findValidDropZones_safe_witness :
    (∀ c ∈ demoCoins, c.id ≠ 0 →
      (30 : ℝ) * 1.5 ≤ getDistance c.pos ⟨148, 136⟩) ∧
    (30 : ℝ) ≤ (Position.mk 148 136).x ∧
    (Position.mk 148 136).x ≤ 600 - 30 ∧
    (30 : ℝ) ≤ (Position.mk 148 136).y ∧
    (Position.mk 148 136).y ≤ 400 - 30 :=
  findValidDropZones_safe 30 600 400 demoCoins 0 ⟨148, 136⟩
    (by rw [demo_zones]; exact List.mem_cons_self _ _)

/-- C3: for a pair of non-coincident reference coins at distance at most
`4R`, both candidate positions the engine computes for the pair are at
Euclidean distance exactly `2R` from each coin of the pair (the embedding
uses exact reals, so "up to floating-point tolerance" becomes equality). -/
theorem candidatePositions_tangent (R : ℝ) (c1 c2 : Coin)
    (hpos : 0 < getDistance c1.pos c2.pos)
    (hle : getDistance c1.pos c2.pos ≤ R * 4) :
    getDistance (candidatePositions R c1 c2).1 c1.pos = R * 2 ∧
    getDistance (candidatePositions R c1 c2).1 c2.pos = R * 2 ∧
    getDistance (candidatePositions R c1 c2).2 c1.pos = R * 2 ∧
    getDistance (candidatePositions R c1 c2).2 c2.pos = R * 2 := by
  simp only [candidatePositions, getDistance, Coin.pos]
  have hs0 : 0 ≤ (c2.x - c1.x) * (c2.x - c1.x) +
      (c2.y - c1.y) * (c2.y - c1.y) := by
    nlinarith [sq_nonneg (c2.x - c1.x), sq_nonneg (c2.y - c1.y)]
  set d := Real.sqrt ((c2.x - c1.x) * (c2.x - c1.x) +
    (c2.y - c1.y) * (c2.y - c1.y)) with hd
  have hgd : getDistance c1.pos c2.pos = d := by
    rw [getDistance, hd]
    congr 1
    simp only [Coin.pos]
    ring
  have hd0 : 0 < d := hgd ▸ hpos
  have hdne : d ≠ 0 := ne_of_gt hd0
  have hdsq : d ^ 2 = (c2.x - c1.x) * (c2.x - c1.x) +
      (c2.y - c1.y) * (c2.y - c1.y) := by
    rw [hd]
    exact Real.sq_sqrt hs0
  have hd4 : d ≤ R * 4 := hgd ▸ hle
  have hR : 0 < R := by nlinarith
  have hnn : 0 ≤ (R * 2) * (R * 2) - (d / 2) * (d / 2) := by nlinarith
  have hmax : max 0 ((R * 2) * (R * 2) - (d / 2) * (d / 2)) =
      (R * 2) * (R * 2) - (d / 2) * (d / 2) := max_eq_right hnn
  set o := Real.sqrt (max 0 ((R * 2) * (R * 2) - (d / 2) * (d / 2))) with ho
  have ho2 : o ^ 2 = (R * 2) * (R * 2) - (d / 2) * (d / 2) := by
    rw [ho, hmax]
    exact Real.sq_sqrt (hmax ▸ le_max_left _ _)
  have hinv : d * d⁻¹ = 1 := mul_inv_cancel₀ hdne
  refine ⟨?_, ?_, ?_, ?_⟩ <;>
    exact sqrt_eq_of_sq _ _ (by linarith)
      (by linear_combination (1 / 4 + o ^ 2 / d ^ 2) * hdsq - ho2 -
        o ^ 2 * (1 + d * d⁻¹) * hinv)

/-- Witness for C3: coins 1 and 2 of `demoCoins` are 96 < 120 apart; both
candidates are exactly 60 from each. -/
theorem candidatePositions_tangent_witness :
    getDistance
        (candidatePositions 30 ⟨1, 100, 100, false⟩ ⟨2, 196, 100, false⟩).1
        (Coin.pos ⟨1, 100, 100, false⟩) = 30 * 2 ∧
    getDistance
        (candidatePositions 30 ⟨1, 100, 100, false⟩ ⟨2, 196, 100, false⟩).1
        (Coin.pos ⟨2, 196, 100, false⟩) = 30 * 2 ∧
    getDistance
        (candidatePositions 30 ⟨1, 100, 100, false⟩ ⟨2, 196, 100, false⟩).2
        (Coin.pos ⟨1, 100, 100, false⟩) = 30 * 2 ∧
    getDistance
        (candidatePositions 30 ⟨1, 100, 100, false⟩ ⟨2, 196, 100, false⟩).2
        (Coin.pos ⟨2, 196, 100, false⟩) = 30 * 2 := by
  have hdist : getDistance (Coin.pos ⟨1, 100, 100, false⟩)
      (Coin.pos ⟨2, 196, 100, false⟩) = 96 := by
    norm_num [getDistance, Coin.pos]
    exact sqrt_eq_of_sq _ _ (by norm_num) (by norm_num)
  exact candidatePositions_tangent 30 ⟨1, 100, 100, false⟩
    ⟨2, 196, 100, false⟩ (by rw [hdist]; norm_num) (by rw [hdist]; norm_num)

/-- C4 is refuted: from the initial upward triangle, after ANY three moves
of coin 0 — in particular after any three legal zone selections — the
completion check is still `false`, because coins 1–5 never move and coin 1
stays `sqrt 3604 ≈ 60.03 ≥ 20` away from its identity-matched target slot 1.
The spec's 3-move scenario (and the app's own "theoretical minimum is 3
moves" help text) is unattainable under the identity-sensitive check. -/
theorem threeMoves_of_coin0_never_complete (cx cy : ℝ)
    (z1 z2 z3 : Position) :
    isComplete cx cy
      (applyMoveCoins 0 z3 (applyMoveCoins 0 z2 (applyMoveCoins 0 z1
        (initialCoins cx cy)))) = false := by
  have hcoins : applyMoveCoins 0 z3 (applyMoveCoins 0 z2 (applyMoveCoins 0 z1
      (initialCoins cx cy))) =
      [⟨0, z3.x, z3.y, false⟩, ⟨1, cx - 30, cy - 8, false⟩,
       ⟨2, cx + 30, cy - 8, false⟩, ⟨3, cx - 60, cy + 44, false⟩,
       ⟨4, cx, cy + 44, false⟩, ⟨5, cx + 60, cy + 44, false⟩] := rfl
  rw [hcoins]
  have hfar : ¬ (getDistance (Coin.pos ⟨1, cx - 30, cy - 8, false⟩)
      ⟨cx, cy - 60⟩ < 20) := by
    simp only [getDistance, Coin.pos]
    rw [show (cx - 30 - cx) ^ 2 + (cy - 8 - (cy - 60)) ^ 2 = 3604 by ring]
    push_neg
    exact Real.le_sqrt_of_sq_le (by norm_num)
  simp only [isComplete, TARGET_POSITIONS, List.zip_cons_cons,
    List.zip_nil_right, List.all_cons, List.all_nil]
  rw [decide_eq_false hfar]
  simp

end

end CoinPuzzle
